import Mathlib

/-!
# HotSeat — verification of the interview orchestration and scoring core

Shallow embedding, in Lean 4, of the scoring/orchestration core of the
HotSeat interview game:

* `src/App.tsx` — the client-side turn state machine (`applyDeltaAndCheck`,
  `resolveSelectedAnswer`, `handleSelectAnswer`, the per-bucket delta clamp);
* `src/constants.ts` — the numeric game constants;
* `src/server.js` — the server-side payload normalizer (`normalizeHostPayload`,
  `normalizeOptionText`, `trimToMaxWords`, `firstSentence`,
  `selectionToCategory`) and the `/api/chat` selected-key handling;
* `src/services/geminiService.ts` — the client-side response normalizer
  (`normaliseResponse`) and request builder (`sendUserAnswer`).

JavaScript numbers are modelled as exact rationals (`ℚ`); `toFixed(2)`
is modelled as rounding to the nearest multiple of `1/100`, half up
(the ECMAScript "pick the larger n" rule). Strings are `List Char`;
the `\s` whitespace class is modelled by its ASCII members, which are the
only ones the repository's string constants contain.
-/

namespace HotSeat

/-- `clamp` from `src/App.tsx` (line 30): `Math.max(min, Math.min(max, n))`. -/
def clamp (n lo hi : ℚ) : ℚ := max lo (min hi n)

/-- `Number(x.toFixed(2))`: round to two decimal places, ties up
(ECMAScript `toFixed` picks the larger candidate on a tie). -/
def round2 (q : ℚ) : ℚ := (Int.floor (q * 100 + 1 / 2) : ℚ) / 100

/-- `STARTING_STOCK_PRICE` from `src/constants.ts` (line 2). -/
def STARTING_STOCK_PRICE : ℚ := 100

/-- `FAIL_STOCK_PRICE` from `src/constants.ts` (line 3).  One revision of the
constants file sets it to `95.0`, the turn-based revision sets it to `0`
(unreachable under the `Math.max(0, …)` clamp); we take the `95.0` value,
which is the one the fail-threshold claims refer to.  No theorem below other
than the concrete breach evaluation depends on the numeric value. -/
def FAIL_STOCK_PRICE : ℚ := 95

/-- `TOTAL_QUESTIONS` from the turn-based `src/constants.ts`. -/
def TOTAL_QUESTIONS : Nat := 4

/-- `GamePhase` from `src/types.ts`. -/
inductive GamePhase where
  | setup
  | intro
  | interview
  | summary
deriving DecidableEq, Repr

/-- `InterviewState.outcome` values (`"success" | "failure"`). -/
inductive Outcome where
  | success
  | failure
deriving DecidableEq, Repr

/-- `AnswerCategory` from `src/types.ts`: `"good" | "evasive" | "bad"`. -/
inductive AnswerCategory where
  | good
  | evasive
  | bad
deriving DecidableEq, Repr

/-- `AnswerOptionKey` from `src/types.ts`: `"good" | "ok" | "evasive"`. -/
inductive AnswerOptionKey where
  | good
  | ok
  | evasive
deriving DecidableEq, Repr

/-- `WorstAnswer` from `src/types.ts`. -/
structure WorstAnswer where
  userText : List Char
  questionText : Option (List Char)
  category : AnswerCategory
  delta : ℚ
  reason : Option (List Char)
  atTimeLeftMs : Option ℤ
deriving DecidableEq, Repr

/-- `InterviewState` from `src/types.ts`. -/
structure InterviewState where
  stockPrice : ℚ
  lowestPrice : ℚ
  awaitingAnswer : Bool
  evasiveStreak : Nat
  audienceSentiment : ℚ
  outcome : Option Outcome
  worstAnswer : Option WorstAnswer
  startedAtMs : Option ℤ
  questionAskedAtMs : Option ℤ
  questionCount : Nat
  maxQuestions : Nat
deriving DecidableEq, Repr

/-- The initial `interviewState` from `src/App.tsx` (lines 59-71), also
re-established by `startInterview` (lines 386-398). -/
def initialInterviewState : InterviewState where
  stockPrice := STARTING_STOCK_PRICE
  lowestPrice := STARTING_STOCK_PRICE
  awaitingAnswer := false
  evasiveStreak := 0
  audienceSentiment := 50
  outcome := none
  worstAnswer := none
  startedAtMs := none
  questionAskedAtMs := none
  questionCount := 0
  maxQuestions := TOTAL_QUESTIONS

/-- `applyDeltaAndCheck` from `src/App.tsx` (lines 233-251), as the pure
state transformer passed to `setInterviewState`:

```js
const nextPrice = Number((prev.stockPrice + delta).toFixed(2));
const clamped = Math.max(0, nextPrice);
const lowestPrice = Math.min(prev.lowestPrice, clamped);
let worstAnswer = prev.worstAnswer;
if (worst && (worstAnswer == null || worst.delta > worstAnswer.delta)) {
  worstAnswer = worst;
}
let audienceSentiment = prev.audienceSentiment;
if (delta > 0) audienceSentiment += 6;
if (delta < 0) audienceSentiment -= 8;
audienceSentiment = Math.max(0, Math.min(100, audienceSentiment));
return { ...prev, stockPrice: clamped, lowestPrice, audienceSentiment, worstAnswer };
```
-/
def applyDeltaAndCheck (delta : ℚ) (worst : Option WorstAnswer)
    (prev : InterviewState) : InterviewState :=
  let nextPrice := round2 (prev.stockPrice + delta)
  let clamped := max 0 nextPrice
  let lowestPrice := min prev.lowestPrice clamped
  let worstAnswer :=
    match worst, prev.worstAnswer with
    | some w, none => some w
    | some w, some old => if w.delta > old.delta then some w else some old
    | none, old => old
  let s1 : ℚ := prev.audienceSentiment
  let s2 : ℚ := if delta > 0 then s1 + 6 else s1
  let s3 : ℚ := if delta < 0 then s2 - 8 else s2
  let audienceSentiment := max 0 (min 100 s3)
  { prev with
      stockPrice := clamped
      lowestPrice := lowestPrice
      audienceSentiment := audienceSentiment
      worstAnswer := worstAnswer }

/-- One resolved turn, as fed to `applyDeltaAndCheck`: the committed delta
and the candidate worst-answer record. -/
def stepA (s : InterviewState) (p : ℚ × Option WorstAnswer) : InterviewState :=
  applyDeltaAndCheck p.1 p.2 s

/-- Fold a sequence of committed deltas from the initial state. -/
def runDeltas (steps : List (ℚ × Option WorstAnswer)) : InterviewState :=
  steps.foldl stepA initialInterviewState

/-- All stock prices seen along a delta sequence (initial state included). -/
def priceTrace (steps : List (ℚ × Option WorstAnswer)) : List ℚ :=
  (steps.scanl stepA initialInterviewState).map (·.stockPrice)

/-- `optionKeyToScoreCategory` from `src/App.tsx` (lines 35-37). -/
def optionKeyToScoreCategory (key : AnswerOptionKey) : AnswerCategory :=
  if key = .good then .good else .evasive

/-- The committed delta computed by `resolveSelectedAnswer`
(`src/App.tsx` lines 437-444) from the raw scoring-engine delta:

```js
let finalDelta = clamp(scored.delta, -5, 5);
if (selectedKey === "good") finalDelta = clamp(finalDelta, 0.8, 3.5);
if (selectedKey === "evasive") finalDelta = clamp(finalDelta, -3.5, -0.1);
if (response?.isContradiction) finalDelta = Math.min(finalDelta, -0.8);
```
-/
def finalDelta (selectedKey : AnswerOptionKey) (isContradiction : Bool)
    (scoredDelta : ℚ) : ℚ :=
  let f0 := clamp scoredDelta (-5) 5
  let f1 := if selectedKey = .good then clamp f0 (8 / 10) (35 / 10) else f0
  let f2 := if selectedKey = .evasive then clamp f1 (-35 / 10) (-1 / 10) else f1
  if isContradiction then min f2 (-8 / 10) else f2

/-! ## Strings: the server-side text shaping layer (`src/server.js`) -/

/-- The ASCII members of the JavaScript `\s` class (`split(/\s+/)`,
`String.prototype.trim`). -/
def isWs (c : Char) : Bool :=
  c = ' ' || c = '\t' || c = '\n' || c = '\r' || c = '\x0b' || c = '\x0c'

/-- The maximal whitespace-free words of a character list, in order:
`String(s).trim().split(/\s+/).filter(Boolean)`. -/
def words : List Char → List (List Char)
  | [] => []
  | [c] => if isWs c then [] else [[c]]
  | c :: d :: rest =>
    if isWs c then words (d :: rest)
    else if isWs d then [c] :: words (d :: rest)
    else
      match words (d :: rest) with
      | [] => [[c]]
      | w :: tail => (c :: w) :: tail

/-- Leading-whitespace strip. -/
def trimL (l : List Char) : List Char := l.dropWhile isWs

/-- Trailing-whitespace strip. -/
def trimR (l : List Char) : List Char := (l.reverse.dropWhile isWs).reverse

/-- `String.prototype.trim`, restricted to the ASCII whitespace class. -/
def jsTrim (l : List Char) : List Char := trimR (trimL l)

/-- `countWords` from `src/server.js` (lines 92-97). -/
def countWords (s : List Char) : Nat := (words (jsTrim s)).length

/-- `trimToMaxWords` from `src/server.js` (lines 99-103). -/
def trimToMaxWords (s : List Char) (maxWords : Nat) : List Char :=
  if (words (jsTrim s)).length ≤ maxWords then jsTrim s
  else List.intercalate [' '] ((words (jsTrim s)).take maxWords)

/-- Sentence-terminator characters of the regex class `[.!?]`. -/
def sentTerm (c : Char) : Bool := c = '.' || c = '!' || c = '?'

/-- Whether index `k` of `l` is a match end for the lazy regex
`/^(.+?[.!?])(\s|$)/`: at least one (non-newline) character precedes it, it
holds a terminator, and it is followed by whitespace or the end of input. -/
def sentenceBreakAt (l : List Char) (k : Nat) : Bool :=
  decide (1 ≤ k) && sentTerm (l.getD k ' ')
    && (decide (k + 1 = l.length) || isWs (l.getD (k + 1) ' '))
    && (List.range k).all (fun j => !(l.getD j ' ' = '\n'))

/-- Position of the first sentence end, scanning left to right (the regex
engine's lazy `+?`). -/
def firstSentenceIdx (l : List Char) : Option Nat :=
  (List.range l.length).find? (sentenceBreakAt l)

/-- `firstSentence` from `src/server.js` (lines 105-111):
keep only the first sentence (`str.match(/^(.+?[.!?])(\s|$)/)`),
falling back to the whole trimmed string when nothing matches. -/
def firstSentence (s : List Char) : List Char :=
  match firstSentenceIdx (jsTrim s) with
  | some k => jsTrim ((jsTrim s).take (k + 1))
  | none => jsTrim (jsTrim s)

/-- `normalizeOptionText` from `src/server.js` (lines 113-125), on the
string produced from the raw option value:

```js
s = firstSentence(s);
s = trimToMaxWords(s, 18);
if (countWords(s) < 3) s = fallback;
s = firstSentence(s);
s = trimToMaxWords(s, 18);
```
-/
def normalizeOptionText (s fallback : List Char) : List Char :=
  let s1 := trimToMaxWords (firstSentence s) 18
  let s2 := if countWords s1 < 3 then fallback else s1
  trimToMaxWords (firstSentence s2) 18

/-! ## JSON-ish values: untrusted input to the normalizers -/

/-- A JavaScript value as the normalizers see it: `undefined`, `null`,
booleans, (exact-rational) numbers, strings, and objects as field lists. -/
inductive JVal where
  | undefined
  | jnull
  | jbool (b : Bool)
  | jnum (q : ℚ)
  | jstr (s : List Char)
  | jobj (fields : List (List Char × JVal))

/-- Optional-chaining field access `v?.k`: `undefined` on anything that is
not an object carrying the key. -/
def jget (v : JVal) (k : List Char) : JVal :=
  match v with
  | .jobj fields =>
    match fields.find? (fun p => p.1 == k) with
    | some p => p.2
    | none => .undefined
  | _ => .undefined

/-- Nullish test, as used by the `??` operator. -/
def isNullish : JVal → Bool
  | .undefined => true
  | .jnull => true
  | _ => false

/-- The `??` operator. -/
def jvOr (v fb : JVal) : JVal := if isNullish v then fb else v

/-- JavaScript truthiness (`Boolean(v)`, `v ? a : b`). -/
def truthy : JVal → Bool
  | .undefined => false
  | .jnull => false
  | .jbool b => b
  | .jnum q => !(q == 0)
  | .jstr s => !s.isEmpty
  | .jobj _ => true

/-- `v === "s"` for a string literal `s`. -/
def jStrEq (v : JVal) (s : List Char) : Bool :=
  match v with
  | .jstr t => t == s
  | _ => false

/-- `typeof v === "string"`. -/
def jIsString : JVal → Bool
  | .jstr _ => true
  | _ => false

/-- `typeof v === "boolean"`. -/
def jIsBool : JVal → Bool
  | .jbool _ => true
  | _ => false

/-- `typeof v === "object"` on non-null values. -/
def jIsObj : JVal → Bool
  | .jobj _ => true
  | _ => false

/-- The string payload of a string value, else `""` (the shape the code
produces via `typeof x === "string" ? x : ""`). -/
def jStrVal : JVal → List Char
  | .jstr s => s
  | _ => []

/-- The boolean payload of a boolean value, else `false`. -/
def jBoolVal : JVal → Bool
  | .jbool b => b
  | _ => false

/-- Decimal digits of a natural number. -/
def natToChars (n : Nat) : List Char := Nat.toDigits 10 n

/-- Fractional decimal expansion of `r / d`, up to `fuel` digits. -/
def fracDigits : Nat → Nat → Nat → List Char
  | 0, _, _ => []
  | _, 0, _ => []
  | fuel + 1, r, d => Nat.digitChar (r * 10 / d) :: fracDigits fuel (r * 10 % d) d

/-- Decimal rendering of a rational (exact when the expansion terminates
within 20 digits — every number the repository's code produces does).
Approximates JavaScript number-to-string; no settled claim depends on it. -/
def numToChars (q : ℚ) : List Char :=
  let sign : List Char := if q < 0 then ['-'] else []
  let ip := q.num.natAbs / q.den
  let r := q.num.natAbs % q.den
  if r = 0 then sign ++ natToChars ip
  else sign ++ natToChars ip ++ '.' :: fracDigits 20 r q.den

/-- `String(v)`. -/
def jsToString : JVal → List Char
  | .undefined => "undefined".toList
  | .jnull => "null".toList
  | .jbool true => "true".toList
  | .jbool false => "false".toList
  | .jnum q => numToChars q
  | .jstr s => s
  | .jobj _ => "[object Object]".toList

/-! ## Server-side payload normalizer (`src/server.js`) -/

/-- `normalizeOptionText`'s first line `let s = raw ? String(raw) : "";`
composed with the string pipeline. -/
def normalizeOptionRaw (raw : JVal) (fallback : List Char) : List Char :=
  normalizeOptionText (if truthy raw then jsToString raw else []) fallback

/-- `goodFallback` from `src/server.js` `normalizeOptions` (line 128). -/
def goodOptionFallback : List Char :=
  "We track retention and margin weekly, publish results monthly, and act on the data.".toList

/-- `evasiveFallback` from `src/server.js` `normalizeOptions` (line 130). -/
def evasiveOptionFallback : List Char :=
  "We’re seeing strong momentum, and we’ll share more details when we’re ready.".toList

/-- The normalized `{ good, evasive }` option pair. -/
structure ServerOptions where
  good : List Char
  evasive : List Char

/-- `normalizeOptions` from `src/server.js` (lines 127-137). -/
def normalizeOptions (options : JVal) : ServerOptions where
  good := normalizeOptionRaw (jget options "good".toList) goodOptionFallback
  evasive := normalizeOptionRaw (jget options "evasive".toList) evasiveOptionFallback

/-- The fallback host line in `normalizeHostPayload` (line 145). -/
def defaultHostText : List Char :=
  "Welcome. What is the single biggest risk to your business this year?".toList

/-- The fully-normalized host payload the server responds with. -/
structure HostPayload where
  text : JVal
  category : JVal
  isContradiction : Bool
  sentiment : JVal
  reason : JVal
  options : ServerOptions
  optionsOrder : List AnswerOptionKey
  isInterviewOver : Bool

/-- `normalizeHostPayload` from `src/server.js` (lines 143-160); the coin
models the `Math.random() < 0.5` draw inside `randomOptionsOrder`. -/
def normalizeHostPayload (parsed : JVal) (coin : Bool) : HostPayload where
  text := jvOr (jget parsed "text".toList) (.jstr defaultHostText)
  category := jvOr (jget parsed "category".toList) (.jstr "good".toList)
  isContradiction := truthy (jget parsed "isContradiction".toList)
  sentiment := jget parsed "sentiment".toList
  reason := jget parsed "reason".toList
  options := normalizeOptions (jget parsed "options".toList)
  optionsOrder := if coin then [.good, .evasive] else [.evasive, .good]
  isInterviewOver := false

/-- `selectionToCategory` from `src/server.js` (lines 162-164). -/
def selectionToCategory (selectionKey : List Char) : List Char :=
  if selectionKey == "evasive".toList then "evasive".toList else "good".toList

/-- The `/api/chat` handler's reading of the selected key
(`src/server.js` line 262): `selectedKey === "good" || selectedKey ===
"evasive" ? selectedKey : "good"`. -/
def chatSelFromBody (body : JVal) : List Char :=
  let sk := jget body "selectedKey".toList
  if jStrEq sk "good".toList then "good".toList
  else if jStrEq sk "evasive".toList then "evasive".toList
  else "good".toList

/-- The category the server echoes back on `/api/chat`
(`normalized.category = selectionToCategory(sel)`, line 280). -/
def serverEchoedCategory (body : JVal) : List Char :=
  selectionToCategory (chatSelFromBody body)

/-- The `/api/chat` request body built by `sendUserAnswer` in
`src/services/geminiService.ts` (lines 92-100):
`postJson("/api/chat", { sessionId, message: answer })`. -/
def chatRequestBody (sessionId answer : List Char) : JVal :=
  .jobj [("sessionId".toList, .jstr sessionId), ("message".toList, .jstr answer)]

/-! ## Client-side response normaliser (`src/services/geminiService.ts`) -/

/-- The shape of the normalised client response (`GeminiResponse` fields
produced by `normaliseResponse`). -/
structure GeminiResponseN where
  text : List Char
  category : AnswerCategory
  isContradiction : Bool
  sentiment : JVal
  reason : JVal

/-- `isNewShape` from `src/services/geminiService.ts` (lines 23-31). -/
def isNewShape (x : JVal) : Bool :=
  truthy x && jIsObj x
    && jIsString (jget x "text".toList)
    && (jStrEq (jget x "category".toList) "good".toList
        || jStrEq (jget x "category".toList) "evasive".toList
        || jStrEq (jget x "category".toList) "bad".toList)
    && jIsBool (jget x "isContradiction".toList)

/-- Reading the (guarded) category string into the enum; under the
`isNewShape` guard this is the identity embedding. -/
def decodeCategory (v : JVal) : AnswerCategory :=
  if jStrEq v "good".toList then .good
  else if jStrEq v "evasive".toList then .evasive
  else .bad

/-- The placeholder reason synthesized on the legacy path (line 61). -/
def legacyReasonText : List Char :=
  "Normalised from legacy Gemini response".toList

/-- `normaliseResponse` from `src/services/geminiService.ts` (lines 33-63). -/
def normaliseResponse (raw : JVal) : GeminiResponseN :=
  if isNewShape raw then
    { text := jStrVal (jget raw "text".toList)
      category := decodeCategory (jget raw "category".toList)
      isContradiction := jBoolVal (jget raw "isContradiction".toList)
      sentiment := jget raw "sentiment".toList
      reason := jget raw "reason".toList }
  else
    let stockChange : ℚ :=
      match jget raw "stockChange".toList with
      | .jnum q => q
      | _ => 0
    let sentiment := jget raw "sentiment".toList
    let category : AnswerCategory :=
      if decide ((1 : ℚ) / 2 ≤ stockChange) || jStrEq sentiment "positive".toList then .good
      else if decide (stockChange ≤ -(5 : ℚ) / 2) || jStrEq sentiment "negative".toList then .bad
      else .evasive
    { text := jStrVal (jget raw "text".toList)
      category := category
      isContradiction := false
      sentiment := sentiment
      reason := .jstr legacyReasonText }

/-! ## The answer-selection step relation (`src/App.tsx`) -/

/-- The client state consulted by `handleSelectAnswer`: the phase, the
tutorial/loading/lock flags, whether options are present, the interview
state, and a counter of answers actually sent for scoring. -/
structure UiState where
  phase : GamePhase
  introTutorialActive : Bool
  isLoading : Bool
  isAnswerLocked : Bool
  hasOptions : Bool
  itv : InterviewState
  sentCount : Nat
deriving DecidableEq, Repr

/-- The guard conjunction of `handleSelectAnswer` (`src/App.tsx` lines
505-511): phase is INTERVIEW, tutorial not active, not loading, not locked,
awaiting an answer, options present. -/
def selectable (s : UiState) : Bool :=
  decide (s.phase = GamePhase.interview) && !s.introTutorialActive
    && !s.isLoading && !s.isAnswerLocked && s.itv.awaitingAnswer && s.hasOptions

/-- A selection event: `handleSelectAnswer` followed by the synchronous
prefix of `resolveSelectedAnswer` (lines 417-421) — when the guard fails the
event is a no-op; when it passes, `awaitingAnswer` is cleared, input is
locked, loading is set, and exactly one answer is sent for scoring. -/
def selectAnswerStep (s : UiState) : UiState :=
  if selectable s then
    { s with
        itv := { s.itv with awaitingAnswer := false }
        isAnswerLocked := true
        isLoading := true
        sentCount := s.sentCount + 1 }
  else s

/-- The continuation of `resolveSelectedAnswer` on a successful reply
(`src/App.tsx` lines 446-492): commit the streak, apply the delta, then run
the outcome / turn-count update and re-arm the UI. -/
def resolveSuccessStep (s : UiState) (delta : ℚ) (worst : Option WorstAnswer)
    (nextStreak : Nat) (hasNextOptions : Bool) (now : ℤ) : UiState :=
  let st2 := applyDeltaAndCheck delta worst { s.itv with evasiveStreak := nextStreak }
  let next :=
    if st2.outcome = some Outcome.failure then (s.phase, st2)
    else if st2.maxQuestions ≤ st2.questionCount then
      (GamePhase.summary, { st2 with awaitingAnswer := false, outcome := some Outcome.success })
    else
      (s.phase,
        { st2 with
            awaitingAnswer := true
            questionCount := st2.questionCount + 1
            questionAskedAtMs := some now })
  { s with
      phase := next.1
      itv := next.2
      hasOptions := hasNextOptions
      isAnswerLocked := false
      isLoading := false }

/-! ## Sample records and states used by concrete evaluations -/

/-- A committed answer record with delta `-2`. -/
def worstSample : WorstAnswer where
  userText := "We will not comment on that today.".toList
  questionText := some "What is your churn rate?".toList
  category := .evasive
  delta := -2
  reason := none
  atTimeLeftMs := some 0

/-- A committed answer record with delta `-1/2`: strictly less bad than
`worstSample`. -/
def milderSample : WorstAnswer where
  userText := "We are exploring several promising avenues.".toList
  questionText := some "What is your runway?".toList
  category := .evasive
  delta := -(1 / 2)
  reason := none
  atTimeLeftMs := some 0

/-- The client state right after the first question is armed
(`startFirstGeminiQuestion`, `src/App.tsx` lines 269-276). -/
def readyState : UiState where
  phase := .interview
  introTutorialActive := false
  isLoading := false
  isAnswerLocked := false
  hasOptions := true
  itv := { initialInterviewState with awaitingAnswer := true, questionCount := 1 }
  sentCount := 0

/-! ## Helper lemmas for the delta-application invariants -/

theorem applyDelta_outcome_eq (delta : ℚ) (worst : Option WorstAnswer)
    (prev : InterviewState) :
    (applyDeltaAndCheck delta worst prev).outcome = prev.outcome := rfl

theorem applyDelta_stockPrice_nonneg (delta : ℚ) (worst : Option WorstAnswer)
    (prev : InterviewState) : 0 ≤ (applyDeltaAndCheck delta worst prev).stockPrice :=
  le_max_left 0 _

theorem applyDelta_lowest_le (delta : ℚ) (worst : Option WorstAnswer)
    (prev : InterviewState) :
    (applyDeltaAndCheck delta worst prev).lowestPrice ≤ prev.lowestPrice :=
  min_le_left _ _

theorem applyDelta_lowest_eq (delta : ℚ) (worst : Option WorstAnswer)
    (prev : InterviewState) :
    (applyDeltaAndCheck delta worst prev).lowestPrice
      = min prev.lowestPrice (applyDeltaAndCheck delta worst prev).stockPrice := rfl

theorem applyDelta_lowest_le_price (delta : ℚ) (worst : Option WorstAnswer)
    (prev : InterviewState) :
    (applyDeltaAndCheck delta worst prev).lowestPrice
      ≤ (applyDeltaAndCheck delta worst prev).stockPrice :=
  min_le_right _ _

theorem applyDelta_questionCount_eq (delta : ℚ) (worst : Option WorstAnswer)
    (prev : InterviewState) :
    (applyDeltaAndCheck delta worst prev).questionCount = prev.questionCount := rfl

theorem applyDelta_maxQuestions_eq (delta : ℚ) (worst : Option WorstAnswer)
    (prev : InterviewState) :
    (applyDeltaAndCheck delta worst prev).maxQuestions = prev.maxQuestions := rfl

theorem applyDelta_stockPrice_cent (delta : ℚ) (worst : Option WorstAnswer)
    (prev : InterviewState) :
    ∃ n : ℤ, (applyDeltaAndCheck delta worst prev).stockPrice = n / 100 := by
  rcases le_total (round2 (prev.stockPrice + delta)) 0 with h | h
  · refine ⟨0, ?_⟩
    show max 0 (round2 (prev.stockPrice + delta)) = (0 : ℤ) / 100
    rw [max_eq_left h]
    norm_num
  · refine ⟨⌊(prev.stockPrice + delta) * 100 + 1 / 2⌋, ?_⟩
    show max 0 (round2 (prev.stockPrice + delta)) = _
    rw [max_eq_right h]
    rfl

theorem foldl_lowest_eq (steps : List (ℚ × Option WorstAnswer)) :
    ∀ s : InterviewState, s.lowestPrice ≤ s.stockPrice →
      (steps.foldl stepA s).lowestPrice
        = ((steps.scanl stepA s).map (·.stockPrice)).foldl min s.lowestPrice := by
  induction steps with
  | nil =>
    intro s h
    simp [List.scanl_nil, min_eq_left h]
  | cons p rest ih =>
    intro s h
    have hstep : (stepA s p).lowestPrice ≤ (stepA s p).stockPrice :=
      applyDelta_lowest_le_price _ _ _
    have hlow : (stepA s p).lowestPrice = min s.lowestPrice (stepA s p).stockPrice :=
      applyDelta_lowest_eq _ _ _
    have ihs := ih (stepA s p) hstep
    obtain ⟨t, ht⟩ : ∃ t, rest.scanl stepA (stepA s p) = stepA s p :: t := by
      cases rest <;> exact ⟨_, rfl⟩
    calc (List.foldl stepA s (p :: rest)).lowestPrice
        = (List.foldl stepA (stepA s p) rest).lowestPrice := by simp [List.foldl_cons]
      _ = ((rest.scanl stepA (stepA s p)).map (·.stockPrice)).foldl min
            (stepA s p).lowestPrice := ihs
      _ = (t.map (·.stockPrice)).foldl min (stepA s p).lowestPrice := by
            rw [ht]
            simp [List.foldl_cons, min_eq_left hstep]
      _ = (((p :: rest).scanl stepA s).map (·.stockPrice)).foldl min s.lowestPrice := by
            rw [List.scanl_cons, ht]
            simp [List.foldl_cons, min_eq_left h, hlow]

theorem foldl_sentiment_bounds (steps : List (ℚ × Option WorstAnswer)) :
    ∀ s : InterviewState, 0 ≤ s.audienceSentiment → s.audienceSentiment ≤ 100 →
      0 ≤ (steps.foldl stepA s).audienceSentiment
        ∧ (steps.foldl stepA s).audienceSentiment ≤ 100 := by
  induction steps with
  | nil => intro s h0 h1; exact ⟨h0, h1⟩
  | cons p rest ih =>
    intro s _ _
    exact ih (stepA s p) (le_max_left 0 _)
      (max_le (by norm_num) (min_le_left _ _))

theorem foldl_stockPrice_cent (steps : List (ℚ × Option WorstAnswer)) :
    ∀ s : InterviewState, (∃ n : ℤ, s.stockPrice = n / 100) →
      ∃ n : ℤ, (steps.foldl stepA s).stockPrice = n / 100 := by
  induction steps with
  | nil => intro s h; exact h
  | cons p rest ih =>
    intro s _
    exact ih (stepA s p) (applyDelta_stockPrice_cent _ _ _)

/-! ## Claims C1-C5 and C10 -/

/-- C1. The spec claims that when the committed delta pushes the stock
price below `FAIL_STOCK_PRICE` the outcome is set to `Failure` inside delta
application, before the turn-count check.  The code has no such transition:
`applyDeltaAndCheck` leaves `outcome` untouched for every input (first
conjunct), and at the concrete breach — price 100, committed delta −10,
question 1 of 4 — the post-application price 90 is below the threshold 95
while the outcome is still unset (second conjunct).  No statement in
`src/App.tsx` ever assigns the failure outcome; the guard at line 471 reads
it but has no writer. -/
theorem claim1_no_failure_transition :
    (∀ (delta : ℚ) (worst : Option WorstAnswer) (prev : InterviewState),
        (applyDeltaAndCheck delta worst prev).outcome = prev.outcome)
    ∧ ((applyDeltaAndCheck (-10) none
          { initialInterviewState with awaitingAnswer := true, questionCount := 1 }).stockPrice
          = 90
        ∧ (applyDeltaAndCheck (-10) none
            { initialInterviewState with awaitingAnswer := true, questionCount := 1 }).stockPrice
            < FAIL_STOCK_PRICE
        ∧ (applyDeltaAndCheck (-10) none
            { initialInterviewState with awaitingAnswer := true, questionCount := 1 }).outcome
            = none
        ∧ 1 < TOTAL_QUESTIONS) := by
  refine ⟨fun _ _ _ => rfl, ?_, ?_, rfl, by norm_num [TOTAL_QUESTIONS]⟩
  · show max 0 (round2 (initialInterviewState.stockPrice + -10)) = 90
    norm_num [round2, initialInterviewState, STARTING_STOCK_PRICE]
  · show max 0 (round2 (initialInterviewState.stockPrice + -10)) < FAIL_STOCK_PRICE
    norm_num [round2, initialInterviewState, STARTING_STOCK_PRICE, FAIL_STOCK_PRICE]

/-- C2. The spec claims `worstAnswer` always stores the most negative
committed delta seen so far and is never replaced by a less-bad answer.
The code's comparison is reversed: a stored record is replaced exactly when
the candidate's delta is strictly GREATER (less negative), so the record
kept is the least bad (first conjunct, the general characterization), and
concretely a stored `-2` record is displaced by a later `-1/2` record
(second conjunct). -/
theorem claim2_worst_answer_reversed :
    (∀ (d : ℚ) (w w0 : WorstAnswer) (s : InterviewState),
        (applyDeltaAndCheck d (some w) { s with worstAnswer := some w0 }).worstAnswer
          = if w0.delta < w.delta then some w else some w0)
    ∧ (applyDeltaAndCheck (-(1 / 2)) (some milderSample)
          (applyDeltaAndCheck (-2) (some worstSample) initialInterviewState)).worstAnswer
        = some milderSample
    ∧ worstSample.delta < milderSample.delta := by
  refine ⟨fun d w w0 s => rfl, ?_, by norm_num [worstSample, milderSample]⟩
  have h1 : (applyDeltaAndCheck (-2) (some worstSample) initialInterviewState).worstAnswer
      = some worstSample := rfl
  show (match (some milderSample : Option WorstAnswer),
      (applyDeltaAndCheck (-2) (some worstSample) initialInterviewState).worstAnswer with
    | some w, none => some w
    | some w, some old => if w.delta > old.delta then some w else some old
    | none, old => old)
    = some milderSample
  rw [h1]
  norm_num [worstSample, milderSample]

/-- C3 (counterexample). The claim states that a "good" pick always commits
a strictly positive delta, for all values the scoring engine may return and
in conjunction with the contradiction rule.  It is false when the backend
flags a contradiction: the contradiction override runs after the good-pick
clamp, so a good pick with a flagged contradiction commits exactly `-0.8`. -/
theorem claim3_counterexample :
    finalDelta .good true 2 = -(8 / 10)
      ∧ ¬ (0 < finalDelta .good true 2) := by
  constructor
  · show min (clamp (clamp 2 (-5) 5) (8 / 10) (35 / 10)) (-8 / 10) = -(8 / 10)
    norm_num [clamp]
  · show ¬ (0 < min (clamp (clamp 2 (-5) 5) (8 / 10) (35 / 10)) (-8 / 10))
    norm_num [clamp]

/-- C3 (amended). The per-bucket clamp holds with the contradiction
override given precedence: a "good" pick commits a strictly positive delta
whenever no contradiction is flagged; an "evasive" pick commits a strictly
negative delta in every case; and a flagged contradiction forces the
committed delta to at most `-0.8` regardless of the chosen key — for every
value the scoring engine may return. -/
theorem claim3_per_bucket_clamp :
    ∀ (scoredDelta : ℚ) (isContra : Bool),
      (isContra = false → 0 < finalDelta .good isContra scoredDelta)
      ∧ finalDelta .evasive isContra scoredDelta < 0
      ∧ (isContra = true →
          ∀ key, finalDelta key isContra scoredDelta ≤ -(8 / 10)) := by
  intro d c
  refine ⟨?_, ?_, ?_⟩
  · rintro rfl
    show 0 < clamp (clamp d (-5) 5) (8 / 10) (35 / 10)
    exact lt_max_of_lt_left (by norm_num)
  · have hneg : clamp (clamp d (-5) 5) (-35 / 10) (-1 / 10) < 0 :=
      max_lt (by norm_num) (lt_of_le_of_lt (min_le_left _ _) (by norm_num))
    cases c with
    | false => exact hneg
    | true =>
      show min (clamp (clamp d (-5) 5) (-35 / 10) (-1 / 10)) (-8 / 10) < 0
      exact lt_of_le_of_lt (min_le_right _ _) (by norm_num)
  · rintro rfl key
    show min _ (-8 / 10) ≤ -(8 / 10)
    exact le_of_le_of_eq (min_le_right _ _) (by norm_num)

/-- C3 (witness): the amended clamp at concrete inputs — a good pick with
raw engine delta `2` and no contradiction commits a positive delta, and an
evasive pick with a flagged contradiction commits at most `-0.8`. -/
theorem claim3_witness :
    0 < finalDelta .good false 2
      ∧ finalDelta .evasive true (-1) ≤ -(8 / 10) :=
  ⟨(claim3_per_bucket_clamp 2 false).1 rfl,
    (claim3_per_bucket_clamp (-1) true).2.2 rfl .evasive⟩

/-- C4. Starting from the initial state, after every committed delta the
stock price is non-negative and an exact multiple of `1/100` (two-decimal
precision), each application can only lower `lowestPrice` (monotone
non-increasing), and after any sequence of committed deltas `lowestPrice`
equals the minimum of every stock price seen along the trace. -/
theorem claim4_floor_and_running_min :
    (∀ (delta : ℚ) (worst : Option WorstAnswer) (prev : InterviewState),
        0 ≤ (applyDeltaAndCheck delta worst prev).stockPrice
          ∧ (applyDeltaAndCheck delta worst prev).lowestPrice ≤ prev.lowestPrice)
    ∧ (∀ steps : List (ℚ × Option WorstAnswer),
        (runDeltas steps).lowestPrice = (priceTrace steps).foldl min STARTING_STOCK_PRICE
          ∧ ∃ n : ℤ, (runDeltas steps).stockPrice = n / 100) := by
  refine ⟨fun d w s => ⟨applyDelta_stockPrice_nonneg d w s, applyDelta_lowest_le d w s⟩,
    fun steps => ⟨?_, ?_⟩⟩
  · have h := foldl_lowest_eq steps initialInterviewState le_rfl
    simpa [runDeltas, priceTrace, initialInterviewState] using h
  · exact foldl_stockPrice_cent steps initialInterviewState
      ⟨10000, by norm_num [initialInterviewState, STARTING_STOCK_PRICE]⟩

/-- C5. Modeling answer selection as a step relation: a selection event
whose guard fails (not awaiting an answer, input locked, loading, wrong
phase, tutorial active, or no options) is a no-op; a passing selection
immediately clears `awaitingAnswer`, locks input, sets loading, and sends
exactly one answer for scoring, so a second selection event arriving before
resolution is the identity — two rapid selections send exactly one answer
and, after the successful resolution, advance `questionCount` exactly
once. -/
theorem claim5_input_lock (s : UiState) :
    (selectable s = false → selectAnswerStep s = s)
    ∧ (selectable s = true →
        (selectAnswerStep s).itv.awaitingAnswer = false
        ∧ (selectAnswerStep s).isAnswerLocked = true
        ∧ (selectAnswerStep s).isLoading = true
        ∧ selectAnswerStep (selectAnswerStep s) = selectAnswerStep s
        ∧ (selectAnswerStep (selectAnswerStep s)).sentCount = s.sentCount + 1
        ∧ (selectAnswerStep (selectAnswerStep s)).itv.questionCount = s.itv.questionCount
        ∧ (s.itv.outcome = none → s.itv.questionCount < s.itv.maxQuestions →
            ∀ (d : ℚ) (w : Option WorstAnswer) (n : Nat) (opts : Bool) (now : ℤ),
              (resolveSuccessStep (selectAnswerStep (selectAnswerStep s))
                  d w n opts now).itv.questionCount
                = s.itv.questionCount + 1)) := by
  constructor
  · intro h
    simp [selectAnswerStep, h]
  · intro h
    have hlocked : selectAnswerStep s
        = { s with
              itv := { s.itv with awaitingAnswer := false }
              isAnswerLocked := true
              isLoading := true
              sentCount := s.sentCount + 1 } := by
      simp [selectAnswerStep, h]
    have hsecond : selectAnswerStep (selectAnswerStep s) = selectAnswerStep s := by
      rw [hlocked]
      simp [selectAnswerStep, selectable]
    refine ⟨by rw [hlocked], by rw [hlocked], by rw [hlocked], hsecond, ?_, ?_, ?_⟩
    · rw [hsecond, hlocked]
    · rw [hsecond, hlocked]
    · intro hout hcount d w n opts now
      rw [hsecond, hlocked]
      simp [resolveSuccessStep, applyDelta_outcome_eq, applyDelta_questionCount_eq,
        applyDelta_maxQuestions_eq, hout, not_le.mpr hcount]

/-- C5 (witness): from the armed first-question state, the guard passes and
two rapid selections send exactly one answer; the successful resolution then
advances `questionCount` from 1 to 2. -/
theorem claim5_witness :
    selectable readyState = true
      ∧ (selectAnswerStep (selectAnswerStep readyState)).sentCount = 0 + 1
      ∧ (resolveSuccessStep (selectAnswerStep (selectAnswerStep readyState))
          (-1) none 0 true 0).itv.questionCount = 1 + 1 := by
  have h := claim5_input_lock readyState
  have hsel : selectable readyState = true := by decide
  refine ⟨hsel, ((h.2 hsel).2.2.2.2.1), ?_⟩
  exact (h.2 hsel).2.2.2.2.2.2 rfl (by decide) (-1) none 0 true 0

/-- C10. `audienceSentiment` starts at 50; every delta application adds 6
for a strictly positive committed delta, subtracts 8 for a strictly
negative one, leaves it unchanged for zero, then clamps into `[0, 100]`;
consequently after any sequence of committed deltas it lies in
`[0, 100]`. -/
theorem claim10_audience_sentiment :
    initialInterviewState.audienceSentiment = 50
    ∧ (∀ (delta : ℚ) (worst : Option WorstAnswer) (prev : InterviewState),
        (0 < delta → (applyDeltaAndCheck delta worst prev).audienceSentiment
            = max 0 (min 100 (prev.audienceSentiment + 6)))
        ∧ (delta < 0 → (applyDeltaAndCheck delta worst prev).audienceSentiment
            = max 0 (min 100 (prev.audienceSentiment - 8)))
        ∧ (delta = 0 → (applyDeltaAndCheck delta worst prev).audienceSentiment
            = max 0 (min 100 prev.audienceSentiment)))
    ∧ (∀ steps : List (ℚ × Option WorstAnswer),
        0 ≤ (runDeltas steps).audienceSentiment
          ∧ (runDeltas steps).audienceSentiment ≤ 100) := by
  refine ⟨rfl, fun d w s => ⟨?_, ?_, ?_⟩, fun steps =>
    foldl_sentiment_bounds steps initialInterviewState (by norm_num [initialInterviewState])
      (by norm_num [initialInterviewState])⟩
  · intro h
    simp [applyDeltaAndCheck, h, not_lt.mpr h.le, asymm h]
  · intro h
    simp [applyDeltaAndCheck, h, not_lt.mpr h.le, asymm h]
  · intro h
    simp [applyDeltaAndCheck, h]

/-- C10 (witness): the step characterization evaluated at the initial state
for a positive, a negative, and a zero committed delta. -/
theorem claim10_witness :
    (applyDeltaAndCheck 1 none initialInterviewState).audienceSentiment
        = max 0 (min 100 (initialInterviewState.audienceSentiment + 6))
      ∧ (applyDeltaAndCheck (-1) none initialInterviewState).audienceSentiment
        = max 0 (min 100 (initialInterviewState.audienceSentiment - 8))
      ∧ (applyDeltaAndCheck 0 none initialInterviewState).audienceSentiment
        = max 0 (min 100 initialInterviewState.audienceSentiment) :=
  ⟨(claim10_audience_sentiment.2.1 1 none initialInterviewState).1 (by norm_num),
    (claim10_audience_sentiment.2.1 (-1) none initialInterviewState).2.1 (by norm_num),
    (claim10_audience_sentiment.2.1 0 none initialInterviewState).2.2 rfl⟩

/-! ## Lemmas about the word-splitting layer -/

theorem words_cons_ws (c : Char) (l : List Char) (hc : isWs c = true) :
    words (c :: l) = words l := by
  cases l with
  | nil => simp [words, hc]
  | cons d rest => simp [words, hc]

theorem words_cons_ne_nil (c : Char) (l : List Char) (hc : isWs c = false) :
    words (c :: l) ≠ [] := by
  cases l with
  | nil => simp [words, hc]
  | cons d rest =>
    cases hd : isWs d with
    | true => simp [words, hc, hd]
    | false =>
      cases hw : words (d :: rest) with
      | nil => simp [words, hc, hd, hw]
      | cons w tail => simp [words, hc, hd, hw]

theorem words_allWs (l : List Char) (h : ∀ c ∈ l, isWs c = true) :
    words l = [] := by
  induction l with
  | nil => rfl
  | cons c l ih =>
    rw [words_cons_ws c l (h c (by simp))]
    exact ih fun x hx => h x (by simp [hx])

theorem words_nil_all_ws (l : List Char) (h : words l = []) :
    ∀ c ∈ l, isWs c = true := by
  induction l with
  | nil => simp
  | cons c l ih =>
    intro x hx
    cases hc : isWs c with
    | true =>
      rw [words_cons_ws c l hc] at h
      rcases List.mem_cons.mp hx with rfl | hxl
      · exact hc
      · exact ih h x hxl
    | false => exact absurd h (words_cons_ne_nil c l hc)

theorem mem_words (l w : List Char) (hw : w ∈ words l) :
    w ≠ [] ∧ ∀ c ∈ w, isWs c = false := by
  induction l generalizing w with
  | nil => simp [words] at hw
  | cons c l ih =>
    cases hc : isWs c with
    | true =>
      rw [words_cons_ws c l hc] at hw
      exact ih w hw
    | false =>
      cases l with
      | nil =>
        simp [words, hc] at hw
        subst hw
        refine ⟨by simp, ?_⟩
        intro x hx
        rw [List.mem_singleton.mp hx]
        exact hc
      | cons d rest =>
        cases hd : isWs d with
        | true =>
          simp only [words, hc, hd] at hw
          simp at hw
          rcases hw with rfl | hw'
          · refine ⟨by simp, ?_⟩
            intro x hx
            rw [List.mem_singleton.mp hx]
            exact hc
          · exact ih w hw'
        | false =>
          cases hww : words (d :: rest) with
          | nil =>
            simp only [words, hc, hd, hww] at hw
            simp at hw
            subst hw
            refine ⟨by simp, ?_⟩
            intro x hx
            rw [List.mem_singleton.mp hx]
            exact hc
          | cons w0 tail =>
            simp only [words, hc, hd, hww] at hw
            rcases List.mem_cons.mp hw with rfl | hwtail
            · have h0 := ih w0 (by rw [hww]; exact List.mem_cons_self _ _)
              refine ⟨by simp, ?_⟩
              intro x hx
              rcases List.mem_cons.mp hx with rfl | hxw
              · exact hc
              · exact h0.2 x hxw
            · exact ih w (by rw [hww]; exact List.mem_cons.mpr (Or.inr hwtail))

theorem words_trimL (l : List Char) : words (trimL l) = words l := by
  induction l with
  | nil => rfl
  | cons c l ih =>
    cases hc : isWs c with
    | true =>
      rw [words_cons_ws c l hc]
      rw [show trimL (c :: l) = trimL l by simp [trimL, List.dropWhile, hc]]
      exact ih
    | false =>
      rw [show trimL (c :: l) = c :: l by simp [trimL, List.dropWhile, hc]]

theorem words_append_ws (l t : List Char) (ht : ∀ c ∈ t, isWs c = true) :
    words (l ++ t) = words l := by
  induction l with
  | nil => simpa using words_allWs t ht
  | cons c l ih =>
    cases hc : isWs c with
    | true =>
      rw [List.cons_append, words_cons_ws c _ hc, words_cons_ws c _ hc]
      exact ih
    | false =>
      cases l with
      | nil =>
        cases t with
        | nil => simp
        | cons e t' =>
          have he : isWs e = true := ht e (by simp)
          have ht' : words (e :: t') = [] :=
            words_allWs _ fun x hx => ht x hx
          simp [words, hc, he, ht']
      | cons d rest =>
        cases hd : isWs d with
        | true =>
          have hrest : words ((d :: rest) ++ t) = words (d :: rest) := ih
          simp only [List.cons_append] at hrest ⊢
          simp [words, hc, hd, hrest]
        | false =>
          have hrest : words ((d :: rest) ++ t) = words (d :: rest) := ih
          simp only [List.cons_append] at hrest ⊢
          cases hww : words (d :: rest) with
          | nil => exact absurd hww (words_cons_ne_nil d rest hd)
          | cons w0 tail => simp [words, hc, hd, hrest, hww]

theorem trimR_decomp (l : List Char) :
    l = trimR l ++ (l.reverse.takeWhile isWs).reverse
      ∧ ∀ c ∈ (l.reverse.takeWhile isWs).reverse, isWs c = true := by
  constructor
  · conv_lhs => rw [← l.reverse_reverse]
    conv_lhs => rw [← List.takeWhile_append_dropWhile (p := isWs) (l := l.reverse)]
    rw [List.reverse_append]
    rfl
  · intro c hc
    exact List.mem_takeWhile_imp (List.mem_reverse.mp hc)

theorem words_trimR (l : List Char) : words (trimR l) = words l := by
  obtain ⟨hl, ht⟩ := trimR_decomp l
  conv_rhs => rw [hl]
  rw [words_append_ws _ _ ht]

theorem words_jsTrim (l : List Char) : words (jsTrim l) = words l := by
  rw [jsTrim, words_trimR, words_trimL]

theorem countWords_eq (l : List Char) : countWords l = (words l).length := by
  rw [countWords, words_jsTrim]

theorem words_single (w : List Char) (hne : w ≠ [])
    (hws : ∀ c ∈ w, isWs c = false) : words w = [w] := by
  induction w with
  | nil => exact absurd rfl hne
  | cons c w ih =>
    have hc : isWs c = false := hws c (by simp)
    cases w with
    | nil => simp [words, hc]
    | cons d rest =>
      have hd : isWs d = false := hws d (by simp)
      have ihh := ih (by simp) fun x hx => hws x (by simp [hx])
      simp [words, hc, hd, ihh]

theorem words_append_sep (w t : List Char) (hne : w ≠ [])
    (hws : ∀ c ∈ w, isWs c = false) :
    words (w ++ ' ' :: t) = w :: words t := by
  induction w with
  | nil => exact absurd rfl hne
  | cons c w ih =>
    have hc : isWs c = false := hws c (by simp)
    cases w with
    | nil =>
      have hsp : isWs ' ' = true := by decide
      rw [List.cons_append, List.nil_append]
      cases t with
      | nil => simp [words, hc, hsp]
      | cons e t' => simp [words, hc, hsp, words_cons_ws ' ' (e :: t') hsp]
    | cons d rest =>
      have hd : isWs d = false := hws d (by simp)
      have ihh := ih (by simp) fun x hx => hws x (by simp [hx])
      simp only [List.cons_append] at ihh ⊢
      simp [words, hc, hd, ihh]

theorem intercalate_sp_cons (w w' : List Char) (rest : List (List Char)) :
    List.intercalate [' '] (w :: w' :: rest)
      = w ++ ' ' :: List.intercalate [' '] (w' :: rest) := by
  simp [List.intercalate, List.intersperse]

theorem words_intercalate (ws : List (List Char))
    (h : ∀ w ∈ ws, w ≠ [] ∧ ∀ c ∈ w, isWs c = false) :
    words (List.intercalate [' '] ws) = ws := by
  induction ws with
  | nil => rfl
  | cons w rest ih =>
    cases rest with
    | nil =>
      have hw := h w (by simp)
      have hone : List.intercalate [' '] [w] = w := by
        simp [List.intercalate, List.intersperse]
      rw [hone]
      exact words_single w hw.1 hw.2
    | cons w' rest' =>
      have hw := h w (by simp)
      rw [intercalate_sp_cons]
      rw [words_append_sep w _ hw.1 hw.2]
      rw [ih fun x hx => h x (by simp [hx])]

theorem countWords_trimToMaxWords_le (s : List Char) (n : Nat) :
    countWords (trimToMaxWords s n) ≤ n := by
  by_cases hlen : (words (jsTrim s)).length ≤ n
  · rw [trimToMaxWords, if_pos hlen, countWords_eq]
    exact hlen
  · rw [trimToMaxWords, if_neg hlen]
    have hmem : ∀ w ∈ (words (jsTrim s)).take n, w ≠ [] ∧ ∀ c ∈ w, isWs c = false :=
      fun w hw => mem_words _ w (words_jsTrim s ▸ List.take_subset n _ hw)
    rw [countWords_eq, words_intercalate _ hmem, List.length_take]
    exact min_le_left n _

/-! ## Nonemptiness of normalized option text -/

theorem sentTerm_not_ws (c : Char) (h : sentTerm c = true) : isWs c = false := by
  have hc : (c = '.' ∨ c = '!') ∨ c = '?' := by
    simpa [sentTerm, Bool.or_eq_true, decide_eq_true_eq] using h
  rcases hc with (rfl | rfl) | rfl <;> decide

theorem words_take_ne_nil (l : List Char) (k : Nat) (hk : k < l.length)
    (hterm : isWs (l.getD k ' ') = false) : words (l.take (k + 1)) ≠ [] := by
  intro hnil
  have hkt : k < (l.take (k + 1)).length := by
    rw [List.length_take]
    exact lt_min (Nat.lt_succ_self k) hk
  have hmem : l.getD k ' ' ∈ l.take (k + 1) := by
    rw [List.getD_eq_getElem l ' ' hk, ← List.getElem_take l (h := hkt)]
    exact List.getElem_mem hkt
  have hws := words_nil_all_ws _ hnil (l.getD k ' ') hmem
  rw [hws] at hterm
  simp at hterm

theorem words_firstSentence_ne_nil (l : List Char) (h : words l ≠ []) :
    words (firstSentence l) ≠ [] := by
  cases hidx : firstSentenceIdx (jsTrim l) with
  | none =>
    rw [firstSentence, hidx]
    rw [words_jsTrim, words_jsTrim]
    exact h
  | some k =>
    rw [firstSentence, hidx]
    have hbreak : sentenceBreakAt (jsTrim l) k = true := List.find?_some hidx
    have hklt : k < (jsTrim l).length :=
      List.mem_range.mp (List.mem_of_find?_eq_some hidx)
    have hterm : sentTerm ((jsTrim l).getD k ' ') = true := by
      have hb := hbreak
      rw [sentenceBreakAt] at hb
      simp only [Bool.and_eq_true] at hb
      exact hb.1.1.2
    rw [words_jsTrim]
    exact words_take_ne_nil _ k hklt (sentTerm_not_ws _ hterm)

theorem words_count_pos_ne_nil (s : List Char) (h : 1 ≤ countWords s) :
    words s ≠ [] := by
  intro hnil
  rw [countWords_eq, hnil] at h
  exact absurd h (by simp)

theorem trimToMaxWords_ne_nil (s : List Char) (n : Nat) (hn : 1 ≤ n)
    (hw : words s ≠ []) : trimToMaxWords s n ≠ [] := by
  rw [trimToMaxWords]
  by_cases hlen : (words (jsTrim s)).length ≤ n
  · rw [if_pos hlen]
    intro hnil
    rw [← words_jsTrim s, hnil] at hw
    exact hw rfl
  · rw [if_neg hlen]
    have hws : words (jsTrim s) ≠ [] := by rw [words_jsTrim]; exact hw
    cases hww : words (jsTrim s) with
    | nil => exact absurd hww hws
    | cons w0 tail =>
      have h0 : w0 ≠ [] := (mem_words (jsTrim s) w0 (by rw [hww]; simp)).1
      cases n with
      | zero => exact absurd hn (by simp)
      | succ m =>
        rw [List.take_succ_cons]
        cases tail.take m with
        | nil =>
          have : List.intercalate [' '] [w0] = w0 := by
            simp [List.intercalate, List.intersperse]
          rw [this]
          exact h0
        | cons w1 rest =>
          rw [intercalate_sp_cons]
          intro hnil
          exact h0 (List.append_eq_nil.mp hnil).1

theorem normalizeOptionText_ne_nil (s fb : List Char) (hfb : 3 ≤ countWords fb) :
    normalizeOptionText s fb ≠ [] := by
  rw [normalizeOptionText]
  by_cases hlt : countWords (trimToMaxWords (firstSentence s) 18) < 3
  · rw [if_pos hlt]
    exact trimToMaxWords_ne_nil _ 18 (by norm_num)
      (words_firstSentence_ne_nil fb (words_count_pos_ne_nil fb (by omega)))
  · rw [if_neg hlt]
    exact trimToMaxWords_ne_nil _ 18 (by norm_num)
      (words_firstSentence_ne_nil _ (words_count_pos_ne_nil _ (by omega)))

theorem countWords_normalizeOptionText_le (s fb : List Char) :
    countWords (normalizeOptionText s fb) ≤ 18 := by
  rw [normalizeOptionText]
  exact countWords_trimToMaxWords_le _ 18

/-- The shaping pipeline spelled out: first-sentence cut, word cap,
fallback substitution below three words, then the final cut and cap. -/
theorem normalizeOptionText_pipeline (s fb : List Char) :
    normalizeOptionText s fb
      = trimToMaxWords (firstSentence
          (if countWords (trimToMaxWords (firstSentence s) 18) < 3 then fb
           else trimToMaxWords (firstSentence s) 18)) 18 := rfl

theorem goodFallback_three_words : 3 ≤ countWords goodOptionFallback := by decide

theorem evasiveFallback_three_words : 3 ≤ countWords evasiveOptionFallback := by decide

/-- The server's known category enum (`["good", "evasive"]` in the response
schema, `src/server.js` line 190). -/
def isValidServerCategory (v : JVal) : Bool :=
  jStrEq v "good".toList || jStrEq v "evasive".toList

/-- A 40-word option string (two extra sentences after an 11-word one). -/
def fortyWordAnswer : List Char :=
  "Our revenue grew steadily across all four regions this past year. We expanded the team, renewed every major contract, cut costs, improved margins, shipped two flagship products, and entered three new markets without raising outside capital. We remain profitable today.".toList

/-- The first sentence of `fortyWordAnswer`. -/
def fortyWordAnswerHead : List Char :=
  "Our revenue grew steadily across all four regions this past year.".toList

theorem normalizeOption_empty_good :
    normalizeOptionText [] goodOptionFallback = goodOptionFallback := by decide

theorem normalizeOption_empty_evasive :
    normalizeOptionText [] evasiveOptionFallback = evasiveOptionFallback := by decide

theorem fortyWordAnswer_count : countWords fortyWordAnswer = 40 := by decide

set_option maxRecDepth 8000 in
theorem fortyWordAnswer_shaped :
    normalizeOptionText fortyWordAnswer goodOptionFallback = fortyWordAnswerHead := by
  decide

theorem fortyWordAnswerHead_count : countWords fortyWordAnswerHead = 11 := by decide

theorem fortyWordAnswerHead_last : fortyWordAnswerHead.getLast? = some '.' := by decide

attribute [irreducible] words trimL trimR jsTrim countWords trimToMaxWords
  sentenceBreakAt firstSentenceIdx firstSentence normalizeOptionText

/-- A legacy-shaped payload: text, free-text sentiment, numeric impact
score, and no explicit bucket. -/
def legacyPayload (txt sent : JVal) (sc : ℚ) : JVal :=
  .jobj [("text".toList, txt), ("sentiment".toList, sent),
    ("stockChange".toList, .jnum sc)]

theorem isNewShape_legacyPayload (txt sent : JVal) (sc : ℚ) :
    isNewShape (legacyPayload txt sent sc) = false := by
  have hb : jIsBool (jget (legacyPayload txt sent sc) "isContradiction".toList)
      = false := rfl
  rw [isNewShape, hb, Bool.and_false]

theorem normaliseResponse_legacy_category (txt sent : JVal) (sc : ℚ) :
    (normaliseResponse (legacyPayload txt sent sc)).category
      = (if decide ((1 : ℚ) / 2 ≤ sc) || jStrEq sent "positive".toList then .good
         else if decide (sc ≤ -(5 : ℚ) / 2) || jStrEq sent "negative".toList then .bad
         else .evasive) := by
  have hsc : jget (legacyPayload txt sent sc) "stockChange".toList = .jnum sc := rfl
  have hsent : jget (legacyPayload txt sent sc) "sentiment".toList = sent := rfl
  simp only [normaliseResponse, isNewShape_legacyPayload, Bool.false_eq_true, if_false,
    hsc, hsent]

theorem normaliseResponse_legacy_reason (txt sent : JVal) (sc : ℚ) :
    (normaliseResponse (legacyPayload txt sent sc)).reason = .jstr legacyReasonText := by
  simp only [normaliseResponse, isNewShape_legacyPayload, Bool.false_eq_true, if_false]

/-! ## Claims C6-C9 -/

/-- C6. The server-side response normalizer is a total function of its
input and always returns a safe-to-use payload: for every input value (and
either options-order coin) both labeled option keys are present, non-empty
and within the 18-word cap; and on the empty object `{}` it returns the
fixed non-empty fallback host line, the valid bucket `"good"`, a `false`
boolean contradiction flag, and exactly the two non-empty fallback option
texts. -/
theorem claim6_normalizer_empty_object :
    (∀ (parsed : JVal) (coin : Bool),
        (normalizeHostPayload parsed coin).options.good ≠ []
          ∧ (normalizeHostPayload parsed coin).options.evasive ≠ []
          ∧ countWords (normalizeHostPayload parsed coin).options.good ≤ 18
          ∧ countWords (normalizeHostPayload parsed coin).options.evasive ≤ 18)
    ∧ (∀ coin : Bool,
        (normalizeHostPayload (.jobj []) coin).text = .jstr defaultHostText
          ∧ defaultHostText ≠ []
          ∧ (normalizeHostPayload (.jobj []) coin).category = .jstr "good".toList
          ∧ isValidServerCategory (normalizeHostPayload (.jobj []) coin).category = true
          ∧ (normalizeHostPayload (.jobj []) coin).isContradiction = false
          ∧ (normalizeHostPayload (.jobj []) coin).options.good = goodOptionFallback
          ∧ (normalizeHostPayload (.jobj []) coin).options.evasive = evasiveOptionFallback
          ∧ goodOptionFallback ≠ []
          ∧ evasiveOptionFallback ≠ []) := by
  constructor
  · intro parsed coin
    refine ⟨?_, ?_, ?_, ?_⟩
    · exact normalizeOptionText_ne_nil _ _ goodFallback_three_words
    · exact normalizeOptionText_ne_nil _ _ evasiveFallback_three_words
    · exact countWords_normalizeOptionText_le _ _
    · exact countWords_normalizeOptionText_le _ _
  · intro coin
    refine ⟨rfl, by decide, rfl, rfl, rfl, ?_, ?_, by decide, by decide⟩
    · show normalizeOptionText [] goodOptionFallback = goodOptionFallback
      exact normalizeOption_empty_good
    · show normalizeOptionText [] evasiveOptionFallback = evasiveOptionFallback
      exact normalizeOption_empty_evasive

/-- C7 (counterexample). The claim maps every legacy payload by the fixed
numeric thresholds alone; but the code also consults the legacy sentiment:
a legacy payload with impact score `-3` (below the `-2.5` threshold) and
free-text sentiment `"positive"` is classified `good`, not `bad`. -/
theorem claim7_counterexample :
    (normaliseResponse (legacyPayload (.jstr "We pivoted.".toList)
        (.jstr "positive".toList) (-3))).category = .good
      ∧ ((-3 : ℚ) ≤ -(5 : ℚ) / 2)
      ∧ isNewShape (legacyPayload (.jstr "We pivoted.".toList)
          (.jstr "positive".toList) (-3)) = false := by
  refine ⟨?_, by norm_num, isNewShape_legacyPayload _ _ _⟩
  rw [normaliseResponse_legacy_category]
  simp [jStrEq]

/-- C7 (amended). For every legacy payload (numeric impact score, no
explicit bucket) whose free-text sentiment is neither `"positive"` nor
`"negative"`, the normalizer maps score `≥ +0.5` to the `good` bucket,
score `≤ −2.5` to the `bad` bucket, and every value strictly between —
with both threshold values themselves included in their buckets — to the
middle (`evasive`) bucket, and synthesizes the fixed placeholder reason
noting the normalization. -/
theorem claim7_legacy_thresholds (sc : ℚ) (txt sent : JVal)
    (hpos : jStrEq sent "positive".toList = false)
    (hneg : jStrEq sent "negative".toList = false) :
    (normaliseResponse (legacyPayload txt sent sc)).category
        = (if (1 : ℚ) / 2 ≤ sc then .good
           else if sc ≤ -(5 : ℚ) / 2 then .bad else .evasive)
      ∧ (normaliseResponse (legacyPayload txt sent sc)).reason
        = .jstr legacyReasonText := by
  refine ⟨?_, normaliseResponse_legacy_reason txt sent sc⟩
  rw [normaliseResponse_legacy_category, hpos, hneg]
  simp only [Bool.or_false]
  by_cases h1 : (1 : ℚ) / 2 ≤ sc
  · simp [h1]
  · by_cases h2 : sc ≤ -(5 : ℚ) / 2 <;> simp [h1, h2]

/-- C7 (witness): the amended mapping evaluated exactly at the two
thresholds with no sentiment — score `+0.5` lands in `good` and score
`−2.5` lands in `bad`. -/
theorem claim7_witness :
    (normaliseResponse (legacyPayload .undefined .undefined ((1 : ℚ) / 2))).category = .good
      ∧ (normaliseResponse (legacyPayload .undefined .undefined (-(5 : ℚ) / 2))).category
        = .bad := by
  constructor
  · rw [(claim7_legacy_thresholds ((1 : ℚ) / 2) .undefined .undefined rfl rfl).1]
    norm_num
  · rw [(claim7_legacy_thresholds (-(5 : ℚ) / 2) .undefined .undefined rfl rfl).1]
    norm_num

/-- C8. Option text shaping: for every input string and fallback, the
normalized option is obtained by cutting (the input-derived string, or the
substituted fallback when the first pass leaves fewer than three words) to
its first sentence and then hard-capping it at 18 words, and its word count
never exceeds 18; in particular the concrete 40-word option string
collapses to its 11-word first sentence, which ends at a sentence boundary
(`'.'`). -/
theorem claim8_option_text_shaping :
    (∀ s fb : List Char,
        countWords (normalizeOptionText s fb) ≤ 18
          ∧ normalizeOptionText s fb
            = trimToMaxWords (firstSentence
                (if countWords (trimToMaxWords (firstSentence s) 18) < 3 then fb
                 else trimToMaxWords (firstSentence s) 18)) 18)
    ∧ countWords fortyWordAnswer = 40
    ∧ normalizeOptionText fortyWordAnswer goodOptionFallback = fortyWordAnswerHead
    ∧ countWords (normalizeOptionText fortyWordAnswer goodOptionFallback) = 11
    ∧ (normalizeOptionText fortyWordAnswer goodOptionFallback).getLast? = some '.' := by
  refine ⟨fun s fb => ⟨countWords_normalizeOptionText_le s fb,
      normalizeOptionText_pipeline s fb⟩,
    fortyWordAnswer_count, fortyWordAnswer_shaped, ?_, ?_⟩
  · rw [fortyWordAnswer_shaped]
    exact fortyWordAnswerHead_count
  · rw [fortyWordAnswer_shaped]
    exact fortyWordAnswerHead_last

/-- C9. The spec claims every outgoing answer message is tagged with the
player's actually selected bucket and that the server's echoed category
equals that bucket.  The session layer drops the tag: the request body
built by `sendUserAnswer` carries no `selectedKey` field at all (first
conjunct), so the `/api/chat` handler falls back to `"good"` and echoes
category `"good"` even when the player selected `"evasive"` (remaining
conjuncts). -/
theorem claim9_selected_bucket_dropped :
    (∀ sessionId answer : List Char,
        jget (chatRequestBody sessionId answer) "selectedKey".toList = .undefined)
    ∧ serverEchoedCategory (chatRequestBody "sid-1".toList
        "We are focused on the long term vision.".toList) = "good".toList
    ∧ "good".toList ≠ "evasive".toList := by
  refine ⟨fun sessionId answer => rfl, by decide, by decide⟩

end HotSeat
